import Mathlib

/-!
Verification development for the uk-legislation-rag repository.

The pipeline orchestrator (src/etl/pipeline.py, run_etl_pipeline),
the record store operations (src/etl/database.py, insert_legislation)
and the query component (src/cli/query.py, main) are shallowly embedded
as executable Lean functions.  External collaborators (content fetcher,
extractor, embedding generator) are represented by their per-item
results, supplied as input data; an uncaught Python exception is
represented by an optional injection point naming the stage at which
it is raised.  Record-store commits are modelled by an explicit list of
committed records: every mutation in the source is immediately followed
by a commit, so the session's pending state never survives an exception
and rollback is modelled by discarding the uncommitted mutation.
-/

namespace UKLeg

/-- Stage of the per-item try block at which an uncaught exception may be
raised: during the download call, during cleaning/metadata extraction,
during the insert commit (for example an integrity error), during
embedding generation, or during the final status-update commit. -/
inductive ExcStage where
  | fetch
  | extract
  | store
  | embed
  | finalize
deriving DecidableEq

/-- How the processing of one URL ended, mirroring the distinct exits of
the loop body in run_etl_pipeline. -/
inductive Outcome where
  | skippedEmbedded
  | failedDownload
  | skippedRedownload
  | skippedMetadata
  | failedEmbedding
  | ok
  | raised
deriving DecidableEq

/-- External operations invoked while processing one item. -/
inductive Effect where
  | fetch
  | extract
  | store
  | embed
  | index
deriving DecidableEq

/-- A row of the legislations table (class Legislation, src/etl/database.py). -/
structure Record where
  id : Nat
  title : String
  identifier : String
  legislation_type : Option String
  date_made : Option String
  effective_date : Option String
  source_url : String
  content : String
  metadata_json : List (String × String)
  processed_at : Nat
  status : String
deriving DecidableEq

/-- The metadata mapping produced by extract_metadata (src/etl/cleaner.py),
restricted to the keys the pipeline reads. -/
structure Metadata where
  title : Option String
  identifier : Option String
  mtype : Option String
  date_made : Option String
  effective_date : Option String
deriving DecidableEq

/-- Serialisation of the extracted metadata mapping as key/value pairs,
used for the metadata_json entry of data_to_db. -/
def Metadata.toPairs (m : Metadata) : List (String × String) :=
  (match m.title with | some v => [("title", v)] | none => []) ++
  (match m.identifier with | some v => [("identifier", v)] | none => []) ++
  (match m.mtype with | some v => [("type", v)] | none => []) ++
  (match m.date_made with | some v => [("date_made", v)] | none => []) ++
  (match m.effective_date with | some v => [("effective_date", v)] | none => [])

/-- Results of the external collaborators for one URL, plus the optional
uncaught-exception injection point.  fetchResult is the return value of
download_legislation_html (none models the function returning None),
cleanedText the return of clean_legislation_html, md the return of
extract_metadata, embedResult the return of generate_embedding, and now
the current clock value used for processed_at. -/
structure ItemInput where
  fetchResult : Option String
  cleanedText : String
  md : Metadata
  embedResult : Option (List Int)
  raiseAt : Option ExcStage
  now : Nat
deriving DecidableEq

/-- The data dictionary built at lines 121-130 of src/etl/pipeline.py and
passed to insert_legislation.  The pipeline stores the extracted metadata
under the key metadata_json, while insert_legislation reads the key
metadata (absent from the pipeline's dictionary, hence the Option). -/
structure DataToDb where
  title : String
  identifier : String
  mtype : Option String
  date_made : Option String
  effective_date : Option String
  source_url : String
  content : String
  metadata_json : List (String × String)
  metadata : Option (List (String × String))
deriving DecidableEq

/-- Python truthiness of an optional string: None and the empty string are
falsy.  Used for the checks `not metadata.get(..)`. -/
def optTruthy : Option String → Bool
  | none => false
  | some s => s != ""

/-- Python falsiness of the download result: None and the empty string. -/
def strFalsy : Option String → Bool
  | none => true
  | some s => s == ""

/-- Python falsiness of the embedding result: None and the empty list. -/
def embFalsy : Option (List Int) → Bool
  | none => true
  | some v => v.isEmpty

/-- Lookup sql_session.query(Legislation).filter_by(source_url=url).first(). -/
def findBySourceUrl (db : List Record) (url : String) : Option Record :=
  db.find? (fun r => r.source_url == url)

/-- Lookup session.query(Legislation).filter_by(identifier=..).first(). -/
def findByIdentifier (db : List Record) (ident : String) : Option Record :=
  db.find? (fun r => r.identifier == ident)

/-- Row-level effect of a status assignment on the row with the given
primary key; other rows are untouched. -/
def statusUpd (rid : Nat) (s : String) (r : Record) : Record :=
  if r.id == rid then { r with status := s } else r

/-- Committed effect of assigning status to the tracked row and committing:
the row with the given primary key gets the new status. -/
def setStatus (db : List Record) (rid : Nat) (s : String) : List Record :=
  db.map (statusUpd rid s)

/-- Row-level effect of the final success update on the row with the given
primary key: status embedded and processed_at refreshed. -/
def embedUpd (rid : Nat) (t : Nat) (r : Record) : Record :=
  if r.id == rid then { r with status := "embedded", processed_at := t } else r

/-- Committed effect of the final success update (lines 158-161 of
src/etl/pipeline.py). -/
def setEmbedded (db : List Record) (rid : Nat) (t : Nat) : List Record :=
  db.map (embedUpd rid t)

/-- The fresh row built by insert_legislation for a new identifier. -/
def newRec (nextId : Nat) (d : DataToDb) : Record :=
  { id := nextId, title := d.title, identifier := d.identifier,
    legislation_type := d.mtype, date_made := d.date_made,
    effective_date := d.effective_date, source_url := d.source_url,
    content := d.content, metadata_json := d.metadata.getD [],
    processed_at := 0, status := "cleaned" }

/-- insert_legislation (src/etl/database.py, lines 48-76).  If a row with
this identifier exists it is returned unchanged and nothing is inserted;
otherwise a new row with status cleaned is inserted and committed.  The
schema declares source_url unique, so committing a new row whose
source_url duplicates an existing row raises an integrity error, modelled
by the none result, which the caller's per-item handler catches. -/
def insert_legislation (db : List Record) (nextId : Nat) (d : DataToDb) :
    Option (List Record × Record × Nat) :=
  match findByIdentifier db d.identifier with
  | some existing => some (db, existing, nextId)
  | none =>
    if db.any (fun r => r.source_url == d.source_url) then
      none
    else
      some (db ++ [newRec nextId d], newRec nextId d, nextId + 1)

/-- The data_to_db dictionary built by the pipeline for one item. -/
def data_to_db (url : String) (cleaned : String) (md : Metadata) : DataToDb :=
  { title := md.title.getD "", identifier := md.identifier.getD "",
    mtype := md.mtype, date_made := md.date_made,
    effective_date := md.effective_date, source_url := url,
    content := cleaned, metadata_json := md.toPairs, metadata := none }

/-- Result of processing one URL: the committed store, the next fresh
primary key, whether processed_count was incremented, the external
operations performed, and how the item ended. -/
structure ItemResult where
  db : List Record
  nextId : Nat
  counted : Bool
  effects : List Effect
  outcome : Outcome
deriving DecidableEq

/-- The except branch at lines 173-184 of src/etl/pipeline.py: roll back
the pending unit of work, then mark the record looked up at the start of
the item (if any) failed_pipeline and commit.  A record first inserted
during the item is not re-marked, because existing_legislation was bound
before the try block. -/
def handleItemError (db : List Record) (nextId : Nat)
    (existing : Option Record) (effs : List Effect) : ItemResult :=
  match existing with
  | some r => ⟨setStatus db r.id "failed_pipeline", nextId, false, effs, .raised⟩
  | none => ⟨db, nextId, false, effs, .raised⟩

/-- The embed and index stages plus the final status update (lines
142-166 of src/etl/pipeline.py), entered with db2 the store committed at
the end of the store stage and entryId the primary key of the row the
store stage returned.  A falsy embedding commits failed_embedding; the
vector-index write itself never raises because add_embedding_to_vectordb
catches its own exceptions (src/etl/vector_db.py, lines 35-46); success
commits embedded.  The else branch mirrors the skip at lines 163-164,
reachable only if the status before the stage were embedded. -/
def embedStage (db2 : List Record) (n1 : Nat) (inp : ItemInput)
    (existing : Option Record) (entryId : Nat) (cs : String) : ItemResult :=
  if cs != "embedded" then
    if inp.raiseAt == some ExcStage.embed then
      handleItemError db2 n1 existing [.fetch, .extract, .store, .embed]
    else if embFalsy inp.embedResult then
      ⟨setStatus db2 entryId "failed_embedding", n1, false,
        [.fetch, .extract, .store, .embed], .failedEmbedding⟩
    else if inp.raiseAt == some ExcStage.finalize then
      handleItemError db2 n1 existing [.fetch, .extract, .store, .embed, .index]
    else
      ⟨setEmbedded db2 entryId inp.now, n1, true,
        [.fetch, .extract, .store, .embed, .index], .ok⟩
  else
    ⟨db2, n1, true, [.fetch, .extract, .store], .ok⟩

/-- Continuation of the item after a successful download (lines 97-171 of
src/etl/pipeline.py): clean and extract, validate title and identifier,
insert into the store, advance the returned row to cleaned and commit,
then run the embed stage. -/
def afterDownload (db : List Record) (nextId : Nat) (url : String)
    (inp : ItemInput) (existing : Option Record) (cs : String) : ItemResult :=
  if inp.raiseAt == some ExcStage.extract then
    handleItemError db nextId existing [.fetch, .extract]
  else if !(optTruthy inp.md.title) || !(optTruthy inp.md.identifier) then
    ⟨db, nextId, false, [.fetch, .extract], .skippedMetadata⟩
  else if inp.raiseAt == some ExcStage.store then
    handleItemError db nextId existing [.fetch, .extract, .store]
  else
    match insert_legislation db nextId (data_to_db url inp.cleanedText inp.md) with
    | none => handleItemError db nextId existing [.fetch, .extract, .store]
    | some (db1, entry, n1) =>
      embedStage (setStatus db1 entry.id "cleaned") n1 inp existing entry.id cs

/-- Body of the per-item try block (lines 71-171 of src/etl/pipeline.py)
given the record looked up at the start of the item and the current
status derived from it.  A download is attempted on every path here:
either the fetch stage (status new or failed_download) or the resume
re-download at line 92; on the fetch-stage path a falsy download marks
the existing record (if any) failed_download and commits, while on the
resume path a falsy re-download skips with no write. -/
def processItemBody (db : List Record) (nextId : Nat) (url : String)
    (inp : ItemInput) (existing : Option Record) (cs : String) : ItemResult :=
  if inp.raiseAt == some ExcStage.fetch then
    handleItemError db nextId existing [.fetch]
  else if cs == "new" || cs == "failed_download" then
    if strFalsy inp.fetchResult then
      match existing with
      | some r =>
        ⟨setStatus db r.id "failed_download", nextId, false, [.fetch], .failedDownload⟩
      | none => ⟨db, nextId, false, [.fetch], .failedDownload⟩
    else
      afterDownload db nextId url inp existing cs
  else
    if strFalsy inp.fetchResult then
      ⟨db, nextId, false, [.fetch], .skippedRedownload⟩
    else
      afterDownload db nextId url inp existing cs

/-- Processing of one URL by run_etl_pipeline (lines 56-188 of
src/etl/pipeline.py): look up the existing record by source URL, skip
counted when it is already embedded, otherwise run the try block with
current status taken from the record (new when absent). -/
def processItem (db : List Record) (nextId : Nat) (url : String)
    (inp : ItemInput) : ItemResult :=
  match findBySourceUrl db url with
  | some r0 =>
    if r0.status == "embedded" then
      ⟨db, nextId, true, [], .skippedEmbedded⟩
    else
      processItemBody db nextId url inp (some r0) r0.status
  | none => processItemBody db nextId url inp none "new"

/-- Summary of a pipeline run: final committed store, next fresh primary
key, the processed count returned in the summary line, and the per-item
outcomes in input order. -/
structure RunResult where
  db : List Record
  nextId : Nat
  count : Nat
  outcomes : List Outcome
deriving DecidableEq

/-- The processing loop of run_etl_pipeline over the supplied URLs, each
paired with its external-collaborator results. -/
def runPipeline (db : List Record) (nextId : Nat) :
    List (String × ItemInput) → RunResult
  | [] => ⟨db, nextId, 0, []⟩
  | (url, inp) :: rest =>
    let r := processItem db nextId url inp
    let rr := runPipeline r.db r.nextId rest
    ⟨rr.db, rr.nextId, (if r.counted then 1 else 0) + rr.count, r.outcome :: rr.outcomes⟩

/-- One stored entry of the vector index together with its distance to
the current query embedding, as returned by the collection query. -/
structure VEntry where
  vid : String
  document : String
  sql_id : Option Nat
  distance : Int
deriving DecidableEq

/-- Ordering of vector-index hits by ascending distance. -/
def distLe (a b : VEntry) : Prop := a.distance ≤ b.distance

instance : DecidableRel distLe :=
  fun a b => inferInstanceAs (Decidable (a.distance ≤ b.distance))

instance : IsTotal VEntry distLe :=
  ⟨fun a b => Int.le_total a.distance b.distance⟩

instance : IsTrans VEntry distLe :=
  ⟨fun _ _ _ hab hbc => le_trans hab hbc⟩

/-- Modelled from the spec: the Vector Index collaborator (a third-party
vector store, not part of src/) whose contract is that a query with
n_results k over a collection returns the k nearest stored vectors by
ascending distance, hence min k n hits when n vectors are stored. -/
def chromaQuery (store : List VEntry) (k : Nat) : List VEntry :=
  (List.insertionSort distLe store).take k

/-- The result assembly of main in src/cli/query.py: exit when the query
embedding is falsy, otherwise query the collection with n_results 4 and
sort the hits by ascending distance.  none models the non-zero exit. -/
def queryMain (store : List VEntry) (queryEmbedding : Option (List Int)) :
    Option (List VEntry) :=
  if embFalsy queryEmbedding then
    none
  else
    some (List.insertionSort distLe (chromaQuery store 4))

/-! Store-level invariants used by the claims. -/

/-- The five status values the pipeline ever commits. -/
def okStatuses : List String :=
  ["cleaned", "embedded", "failed_download", "failed_embedding", "failed_pipeline"]

/-- Every stored status is one of the five the pipeline commits. -/
def statusesOk (db : List Record) : Prop := ∀ r ∈ db, r.status ∈ okStatuses

/-- No two stored rows share an identifier. -/
def uniqueIdents (db : List Record) : Prop :=
  db.Pairwise (fun a b => a.identifier ≠ b.identifier)

/-- No two stored rows share a source URL. -/
def uniqueUrls (db : List Record) : Prop :=
  db.Pairwise (fun a b => a.source_url ≠ b.source_url)

/-- Every stored row has non-empty content. -/
def contentsNonEmpty (db : List Record) : Prop := ∀ r ∈ db, r.content ≠ ""

/-- Status values strictly beyond the in-memory default new: the statuses
a committed record can actually carry once touched by the pipeline. -/
def beyondNew (s : String) : Prop := s ≠ "new" ∧ s ≠ "pending"

instance (s : String) : Decidable (beyondNew s) :=
  inferInstanceAs (Decidable (s ≠ "new" ∧ s ≠ "pending"))

/-- Outcomes that increment processed_count. -/
def countsProcessed : Outcome → Bool
  | .skippedEmbedded => true
  | .ok => true
  | _ => false

/-! Basic facts about the row updaters. -/

theorem statusUpd_id (rid : Nat) (s : String) (r : Record) :
    (statusUpd rid s r).id = r.id := by
  unfold statusUpd; split <;> rfl

theorem statusUpd_identifier (rid : Nat) (s : String) (r : Record) :
    (statusUpd rid s r).identifier = r.identifier := by
  unfold statusUpd; split <;> rfl

theorem statusUpd_source_url (rid : Nat) (s : String) (r : Record) :
    (statusUpd rid s r).source_url = r.source_url := by
  unfold statusUpd; split <;> rfl

theorem statusUpd_content (rid : Nat) (s : String) (r : Record) :
    (statusUpd rid s r).content = r.content := by
  unfold statusUpd; split <;> rfl

theorem statusUpd_status (rid : Nat) (s : String) (r : Record) :
    (statusUpd rid s r).status = s ∨ (statusUpd rid s r).status = r.status := by
  unfold statusUpd; split
  · exact Or.inl rfl
  · exact Or.inr rfl

theorem embedUpd_id (rid t : Nat) (r : Record) : (embedUpd rid t r).id = r.id := by
  unfold embedUpd; split <;> rfl

theorem embedUpd_identifier (rid t : Nat) (r : Record) :
    (embedUpd rid t r).identifier = r.identifier := by
  unfold embedUpd; split <;> rfl

theorem embedUpd_source_url (rid t : Nat) (r : Record) :
    (embedUpd rid t r).source_url = r.source_url := by
  unfold embedUpd; split <;> rfl

theorem embedUpd_content (rid t : Nat) (r : Record) :
    (embedUpd rid t r).content = r.content := by
  unfold embedUpd; split <;> rfl

theorem embedUpd_status (rid t : Nat) (r : Record) :
    (embedUpd rid t r).status = "embedded" ∨ (embedUpd rid t r).status = r.status := by
  unfold embedUpd; split
  · exact Or.inl rfl
  · exact Or.inr rfl

/-! Invariant preservation through the committed-store operations. -/

theorem statusesOk_setStatus {db : List Record} {rid : Nat} {s : String}
    (h : statusesOk db) (hs : s ∈ okStatuses) : statusesOk (setStatus db rid s) := by
  intro r hr
  rcases List.mem_map.1 hr with ⟨r0, hr0, rfl⟩
  rcases statusUpd_status rid s r0 with he | he
  · rw [he]; exact hs
  · rw [he]; exact h r0 hr0

theorem statusesOk_setEmbedded {db : List Record} {rid t : Nat}
    (h : statusesOk db) : statusesOk (setEmbedded db rid t) := by
  intro r hr
  rcases List.mem_map.1 hr with ⟨r0, hr0, rfl⟩
  rcases embedUpd_status rid t r0 with he | he
  · rw [he]; simp [okStatuses]
  · rw [he]; exact h r0 hr0

theorem uniqueIdents_setStatus {db : List Record} {rid : Nat} {s : String}
    (h : uniqueIdents db) : uniqueIdents (setStatus db rid s) := by
  unfold uniqueIdents setStatus
  rw [List.pairwise_map]
  exact h.imp (by intro a b hab; rw [statusUpd_identifier, statusUpd_identifier]; exact hab)

theorem uniqueIdents_setEmbedded {db : List Record} {rid t : Nat}
    (h : uniqueIdents db) : uniqueIdents (setEmbedded db rid t) := by
  unfold uniqueIdents setEmbedded
  rw [List.pairwise_map]
  exact h.imp (by intro a b hab; rw [embedUpd_identifier, embedUpd_identifier]; exact hab)

theorem uniqueUrls_setStatus {db : List Record} {rid : Nat} {s : String}
    (h : uniqueUrls db) : uniqueUrls (setStatus db rid s) := by
  unfold uniqueUrls setStatus
  rw [List.pairwise_map]
  exact h.imp (by intro a b hab; rw [statusUpd_source_url, statusUpd_source_url]; exact hab)

theorem uniqueUrls_setEmbedded {db : List Record} {rid t : Nat}
    (h : uniqueUrls db) : uniqueUrls (setEmbedded db rid t) := by
  unfold uniqueUrls setEmbedded
  rw [List.pairwise_map]
  exact h.imp (by intro a b hab; rw [embedUpd_source_url, embedUpd_source_url]; exact hab)

theorem contentsNonEmpty_setStatus {db : List Record} {rid : Nat} {s : String}
    (h : contentsNonEmpty db) : contentsNonEmpty (setStatus db rid s) := by
  intro r hr
  rcases List.mem_map.1 hr with ⟨r0, hr0, rfl⟩
  rw [statusUpd_content]
  exact h r0 hr0

theorem contentsNonEmpty_setEmbedded {db : List Record} {rid t : Nat}
    (h : contentsNonEmpty db) : contentsNonEmpty (setEmbedded db rid t) := by
  intro r hr
  rcases List.mem_map.1 hr with ⟨r0, hr0, rfl⟩
  rw [embedUpd_content]
  exact h r0 hr0

/-! Facts about the lookups and the insert operation. -/

theorem findBySourceUrl_mem {db : List Record} {url : String} {r : Record}
    (h : findBySourceUrl db url = some r) : r ∈ db ∧ r.source_url = url := by
  refine ⟨List.mem_of_find?_eq_some h, ?_⟩
  have := List.find?_some h
  simpa using this

theorem findByIdentifier_mem {db : List Record} {i : String} {r : Record}
    (h : findByIdentifier db i = some r) : r ∈ db ∧ r.identifier = i := by
  refine ⟨List.mem_of_find?_eq_some h, ?_⟩
  have := List.find?_some h
  simpa using this

theorem findByIdentifier_none {db : List Record} {i : String}
    (h : findByIdentifier db i = none) : ∀ r ∈ db, r.identifier ≠ i := by
  intro r hr
  have := List.find?_eq_none.1 h r hr
  simpa using this

/-- Case analysis of a successful insert_legislation call. -/
theorem insert_legislation_cases {db db1 : List Record} {n n1 : Nat}
    {d : DataToDb} {e : Record}
    (h : insert_legislation db n d = some (db1, e, n1)) :
    (db1 = db ∧ e ∈ db ∧ e.identifier = d.identifier ∧ n1 = n)
    ∨ (db1 = db ++ [newRec n d] ∧ e = newRec n d ∧ n1 = n + 1
        ∧ (∀ r ∈ db, r.identifier ≠ d.identifier)
        ∧ (∀ r ∈ db, r.source_url ≠ d.source_url)) := by
  unfold insert_legislation at h
  cases hf : findByIdentifier db d.identifier with
  | some ex =>
    rw [hf] at h
    rcases findByIdentifier_mem hf with ⟨hmem, hid⟩
    obtain ⟨h1, h2, h3⟩ : db = db1 ∧ ex = e ∧ n = n1 := by
      injection h with h'
      exact ⟨congrArg Prod.fst h', congrArg (fun p => p.2.1) h', congrArg (fun p => p.2.2) h'⟩
    subst h1; subst h2; subst h3
    exact Or.inl ⟨rfl, hmem, hid, rfl⟩
  | none =>
    rw [hf] at h
    by_cases hany : db.any (fun r => r.source_url == d.source_url) = true
    · rw [if_pos hany] at h
      exact absurd h (by simp)
    · rw [if_neg hany] at h
      obtain ⟨h1, h2, h3⟩ : db ++ [newRec n d] = db1 ∧ newRec n d = e ∧ n + 1 = n1 := by
        injection h with h'
        exact ⟨congrArg Prod.fst h', congrArg (fun p => p.2.1) h', congrArg (fun p => p.2.2) h'⟩
      subst h1; subst h2; subst h3
      refine Or.inr ⟨rfl, rfl, rfl, findByIdentifier_none hf, ?_⟩
      intro r hr
      simp only [List.any_eq_true, not_exists, not_and] at hany
      have := hany r hr
      simpa using this

theorem insert_legislation_entry_mem {db db1 : List Record} {n n1 : Nat}
    {d : DataToDb} {e : Record}
    (h : insert_legislation db n d = some (db1, e, n1)) : e ∈ db1 := by
  rcases insert_legislation_cases h with ⟨rfl, hm, _, _⟩ | ⟨rfl, rfl, _, _, _⟩
  · exact hm
  · simp

theorem statusesOk_insert {db db1 : List Record} {n n1 : Nat}
    {d : DataToDb} {e : Record}
    (h : insert_legislation db n d = some (db1, e, n1))
    (hok : statusesOk db) : statusesOk db1 := by
  rcases insert_legislation_cases h with ⟨rfl, _, _, _⟩ | ⟨rfl, _, _, _, _⟩
  · exact hok
  · intro r hr
    rcases List.mem_append.1 hr with hr | hr
    · exact hok r hr
    · rcases List.mem_singleton.1 hr with rfl
      simp [newRec, okStatuses]

theorem uniqueIdents_insert {db db1 : List Record} {n n1 : Nat}
    {d : DataToDb} {e : Record}
    (h : insert_legislation db n d = some (db1, e, n1))
    (hu : uniqueIdents db) : uniqueIdents db1 := by
  rcases insert_legislation_cases h with ⟨rfl, _, _, _⟩ | ⟨rfl, _, _, hfresh, _⟩
  · exact hu
  · unfold uniqueIdents
    rw [List.pairwise_append]
    refine ⟨hu, List.pairwise_singleton _ _, ?_⟩
    intro a ha b hb
    rcases List.mem_singleton.1 hb with rfl
    have : a.identifier ≠ d.identifier := hfresh a ha
    simpa [newRec] using this

theorem uniqueUrls_insert {db db1 : List Record} {n n1 : Nat}
    {d : DataToDb} {e : Record}
    (h : insert_legislation db n d = some (db1, e, n1))
    (hu : uniqueUrls db) : uniqueUrls db1 := by
  rcases insert_legislation_cases h with ⟨rfl, _, _, _⟩ | ⟨rfl, _, _, _, hfresh⟩
  · exact hu
  · unfold uniqueUrls
    rw [List.pairwise_append]
    refine ⟨hu, List.pairwise_singleton _ _, ?_⟩
    intro a ha b hb
    rcases List.mem_singleton.1 hb with rfl
    have : a.source_url ≠ d.source_url := hfresh a ha
    simpa [newRec] using this

theorem contentsNonEmpty_insert {db db1 : List Record} {n n1 : Nat}
    {d : DataToDb} {e : Record}
    (h : insert_legislation db n d = some (db1, e, n1))
    (hc : contentsNonEmpty db) (hd : d.content ≠ "") : contentsNonEmpty db1 := by
  rcases insert_legislation_cases h with ⟨rfl, _, _, _⟩ | ⟨rfl, _, _, _, _⟩
  · exact hc
  · intro r hr
    rcases List.mem_append.1 hr with hr | hr
    · exact hc r hr
    · rcases List.mem_singleton.1 hr with rfl
      simpa [newRec] using hd

/-! Generic preservation of a store predicate through one item and through
a whole run, instantiated below for the individual invariants. -/

theorem pres_handle (P : List Record → Prop)
    (hset : ∀ db rid s, s ∈ okStatuses → P db → P (setStatus db rid s))
    (db : List Record) (n : Nat) (ex : Option Record) (effs : List Effect)
    (h : P db) : P (handleItemError db n ex effs).db := by
  unfold handleItemError
  cases ex with
  | some r => exact hset db r.id "failed_pipeline" (by simp [okStatuses]) h
  | none => exact h

theorem pres_embedStage (P : List Record → Prop)
    (hset : ∀ db rid s, s ∈ okStatuses → P db → P (setStatus db rid s))
    (hemb : ∀ db rid t, P db → P (setEmbedded db rid t))
    (db2 : List Record) (n1 : Nat) (inp : ItemInput) (ex : Option Record)
    (eid : Nat) (cs : String)
    (h : P db2) : P (embedStage db2 n1 inp ex eid cs).db := by
  unfold embedStage
  split
  · split
    · exact pres_handle P hset _ _ _ _ h
    · split
      · exact hset db2 eid "failed_embedding" (by simp [okStatuses]) h
      · split
        · exact pres_handle P hset _ _ _ _ h
        · exact hemb db2 eid inp.now h
  · exact h

theorem pres_afterDownload (P : List Record → Prop)
    (hset : ∀ db rid s, s ∈ okStatuses → P db → P (setStatus db rid s))
    (hemb : ∀ db rid t, P db → P (setEmbedded db rid t))
    (db : List Record) (n : Nat) (url : String) (inp : ItemInput)
    (ex : Option Record) (cs : String)
    (hins : ∀ db0 db1 m m1 e,
      insert_legislation db0 m (data_to_db url inp.cleanedText inp.md) = some (db1, e, m1) →
      P db0 → P db1)
    (h : P db) : P (afterDownload db n url inp ex cs).db := by
  unfold afterDownload
  split
  · exact pres_handle P hset _ _ _ _ h
  · split
    · exact h
    · split
      · exact pres_handle P hset _ _ _ _ h
      · split
        · exact pres_handle P hset _ _ _ _ h
        · rename_i db1 entry n1 heq
          exact pres_embedStage P hset hemb _ _ _ _ _ _
            (hset _ entry.id "cleaned" (by simp [okStatuses]) (hins db db1 n n1 entry heq h))

theorem pres_processItemBody (P : List Record → Prop)
    (hset : ∀ db rid s, s ∈ okStatuses → P db → P (setStatus db rid s))
    (hemb : ∀ db rid t, P db → P (setEmbedded db rid t))
    (db : List Record) (n : Nat) (url : String) (inp : ItemInput)
    (ex : Option Record) (cs : String)
    (hins : ∀ db0 db1 m m1 e,
      insert_legislation db0 m (data_to_db url inp.cleanedText inp.md) = some (db1, e, m1) →
      P db0 → P db1)
    (h : P db) : P (processItemBody db n url inp ex cs).db := by
  unfold processItemBody
  split
  · exact pres_handle P hset _ _ _ _ h
  · split
    · split
      · cases ex with
        | some r => exact hset db r.id "failed_download" (by simp [okStatuses]) h
        | none => exact h
      · exact pres_afterDownload P hset hemb _ _ _ _ _ _ hins h
    · split
      · exact h
      · exact pres_afterDownload P hset hemb _ _ _ _ _ _ hins h

theorem pres_processItem (P : List Record → Prop)
    (hset : ∀ db rid s, s ∈ okStatuses → P db → P (setStatus db rid s))
    (hemb : ∀ db rid t, P db → P (setEmbedded db rid t))
    (db : List Record) (n : Nat) (url : String) (inp : ItemInput)
    (hins : ∀ db0 db1 m m1 e,
      insert_legislation db0 m (data_to_db url inp.cleanedText inp.md) = some (db1, e, m1) →
      P db0 → P db1)
    (h : P db) : P (processItem db n url inp).db := by
  unfold processItem
  split
  · split
    · exact h
    · exact pres_processItemBody P hset hemb _ _ _ _ _ _ hins h
  · exact pres_processItemBody P hset hemb _ _ _ _ _ _ hins h

theorem pres_runPipeline (P : List Record → Prop)
    (hset : ∀ db rid s, s ∈ okStatuses → P db → P (setStatus db rid s))
    (hemb : ∀ db rid t, P db → P (setEmbedded db rid t))
    (items : List (String × ItemInput))
    (hins : ∀ it ∈ items, ∀ db0 db1 m m1 e,
      insert_legislation db0 m (data_to_db it.1 it.2.cleanedText it.2.md) = some (db1, e, m1) →
      P db0 → P db1) :
    ∀ db n, P db → P (runPipeline db n items).db := by
  induction items with
  | nil => intro db n h; exact h
  | cons it rest ih =>
    intro db n h
    obtain ⟨url, inp⟩ := it
    show P (runPipeline (processItem db n url inp).db (processItem db n url inp).nextId rest).db
    refine ih (fun it hit => hins it (List.mem_cons_of_mem _ hit)) _ _ ?_
    exact pres_processItem P hset hemb db n url inp
      (hins (url, inp) (List.mem_cons_self _ _)) h

/-! Outcome and bookkeeping facts about the item handler and the stages. -/

theorem handle_outcome (db : List Record) (n : Nat) (ex : Option Record)
    (effs : List Effect) : (handleItemError db n ex effs).outcome = .raised := by
  unfold handleItemError; cases ex <;> rfl

theorem handle_counted (db : List Record) (n : Nat) (ex : Option Record)
    (effs : List Effect) : (handleItemError db n ex effs).counted = false := by
  unfold handleItemError; cases ex <;> rfl

theorem counted_embedStage (db2 : List Record) (n1 : Nat) (inp : ItemInput)
    (ex : Option Record) (eid : Nat) (cs : String) :
    (embedStage db2 n1 inp ex eid cs).counted
      = countsProcessed (embedStage db2 n1 inp ex eid cs).outcome := by
  unfold embedStage
  split
  · split
    · rw [handle_outcome, handle_counted]; rfl
    · split
      · rfl
      · split
        · rw [handle_outcome, handle_counted]; rfl
        · rfl
  · rfl

theorem counted_afterDownload (db : List Record) (n : Nat) (url : String)
    (inp : ItemInput) (ex : Option Record) (cs : String) :
    (afterDownload db n url inp ex cs).counted
      = countsProcessed (afterDownload db n url inp ex cs).outcome := by
  unfold afterDownload
  split
  · rw [handle_outcome, handle_counted]; rfl
  · split
    · rfl
    · split
      · rw [handle_outcome, handle_counted]; rfl
      · split
        · rw [handle_outcome, handle_counted]; rfl
        · exact counted_embedStage _ _ _ _ _ _

theorem counted_processItemBody (db : List Record) (n : Nat) (url : String)
    (inp : ItemInput) (ex : Option Record) (cs : String) :
    (processItemBody db n url inp ex cs).counted
      = countsProcessed (processItemBody db n url inp ex cs).outcome := by
  unfold processItemBody
  split
  · rw [handle_outcome, handle_counted]; rfl
  · split
    · split
      · cases ex <;> rfl
      · exact counted_afterDownload _ _ _ _ _ _
    · split
      · rfl
      · exact counted_afterDownload _ _ _ _ _ _

theorem counted_processItem (db : List Record) (n : Nat) (url : String)
    (inp : ItemInput) :
    (processItem db n url inp).counted
      = countsProcessed (processItem db n url inp).outcome := by
  unfold processItem
  split
  · split
    · rfl
    · exact counted_processItemBody _ _ _ _ _ _
  · exact counted_processItemBody _ _ _ _ _ _

theorem runPipeline_count_eq (db : List Record) (n : Nat)
    (items : List (String × ItemInput)) :
    (runPipeline db n items).count
      = (runPipeline db n items).outcomes.countP countsProcessed := by
  induction items generalizing db n with
  | nil => rfl
  | cons it rest ih =>
    obtain ⟨url, inp⟩ := it
    show (if (processItem db n url inp).counted then 1 else 0)
        + (runPipeline (processItem db n url inp).db (processItem db n url inp).nextId rest).count
      = List.countP countsProcessed ((processItem db n url inp).outcome
          :: (runPipeline (processItem db n url inp).db (processItem db n url inp).nextId rest).outcomes)
    rw [List.countP_cons, ih, counted_processItem]
    cases countsProcessed (processItem db n url inp).outcome <;> simp [Nat.add_comm]

/-! Membership facts used to locate the marked row after an update. -/

theorem exists_id_setStatus {db : List Record} {rid0 : Nat} (rid : Nat) (s : String)
    (h : ∃ x ∈ db, x.id = rid0) : ∃ x ∈ setStatus db rid s, x.id = rid0 := by
  obtain ⟨x, hx, rfl⟩ := h
  exact ⟨statusUpd rid s x, List.mem_map_of_mem _ hx, statusUpd_id rid s x⟩

theorem exists_id_insert {db db1 : List Record} {n n1 : Nat} {d : DataToDb}
    {e : Record} {rid0 : Nat}
    (hins : insert_legislation db n d = some (db1, e, n1))
    (h : ∃ x ∈ db, x.id = rid0) : ∃ x ∈ db1, x.id = rid0 := by
  rcases insert_legislation_cases hins with ⟨rfl, _, _, _⟩ | ⟨rfl, _, _, _, _⟩
  · exact h
  · obtain ⟨x, hx, rfl⟩ := h
    exact ⟨x, List.mem_append_left _ hx, rfl⟩

theorem setStatus_mem_marked {db : List Record} {rid : Nat} (s : String)
    (h : ∃ x ∈ db, x.id = rid) :
    ∃ x ∈ setStatus db rid s, x.id = rid ∧ x.status = s := by
  obtain ⟨x, hx, rfl⟩ := h
  refine ⟨statusUpd x.id s x, List.mem_map_of_mem _ hx, statusUpd_id _ s x, ?_⟩
  unfold statusUpd
  simp

theorem setEmbedded_mem_embedded {db : List Record} {rid : Nat} (t : Nat)
    (h : ∃ x ∈ db, x.id = rid) :
    ∃ x ∈ setEmbedded db rid t, x.status = "embedded" := by
  obtain ⟨x, hx, rfl⟩ := h
  refine ⟨embedUpd x.id t x, List.mem_map_of_mem _ hx, ?_⟩
  unfold embedUpd
  simp

theorem handle_marks {db : List Record} {r : Record} (n : Nat) (effs : List Effect)
    (hmem : ∃ x ∈ db, x.id = r.id) :
    ∃ x ∈ (handleItemError db n (some r) effs).db,
      x.id = r.id ∧ x.status = "failed_pipeline" := by
  unfold handleItemError
  exact setStatus_mem_marked _ hmem

/-! Case characterizations of the stage functions: each result is one of
a small list of explicit outcomes, which the claim proofs then dispatch. -/

theorem embedStage_spec (db2 : List Record) (n1 : Nat) (inp : ItemInput)
    (ex : Option Record) (eid : Nat) (cs : String) :
    (∃ effs, embedStage db2 n1 inp ex eid cs = handleItemError db2 n1 ex effs)
    ∨ embedStage db2 n1 inp ex eid cs
        = ⟨setStatus db2 eid "failed_embedding", n1, false,
            [.fetch, .extract, .store, .embed], .failedEmbedding⟩
    ∨ embedStage db2 n1 inp ex eid cs
        = ⟨setEmbedded db2 eid inp.now, n1, true,
            [.fetch, .extract, .store, .embed, .index], .ok⟩
    ∨ (cs = "embedded" ∧ embedStage db2 n1 inp ex eid cs
        = ⟨db2, n1, true, [.fetch, .extract, .store], .ok⟩) := by
  unfold embedStage
  split
  · split
    · exact Or.inl ⟨_, rfl⟩
    · split
      · exact Or.inr (Or.inl rfl)
      · split
        · exact Or.inl ⟨_, rfl⟩
        · exact Or.inr (Or.inr (Or.inl rfl))
  · rename_i hne
    exact Or.inr (Or.inr (Or.inr ⟨by simpa using hne, rfl⟩))

theorem afterDownload_spec (db : List Record) (n : Nat) (url : String)
    (inp : ItemInput) (ex : Option Record) (cs : String) :
    (∃ effs, afterDownload db n url inp ex cs = handleItemError db n ex effs)
    ∨ afterDownload db n url inp ex cs
        = ⟨db, n, false, [.fetch, .extract], .skippedMetadata⟩
    ∨ (∃ db1 entry m1,
        insert_legislation db n (data_to_db url inp.cleanedText inp.md)
          = some (db1, entry, m1)
        ∧ afterDownload db n url inp ex cs
            = embedStage (setStatus db1 entry.id "cleaned") m1 inp ex entry.id cs) := by
  unfold afterDownload
  split
  · exact Or.inl ⟨_, rfl⟩
  · split
    · exact Or.inr (Or.inl rfl)
    · split
      · exact Or.inl ⟨_, rfl⟩
      · split
        · exact Or.inl ⟨_, rfl⟩
        · rename_i db1 entry m1 heq
          exact Or.inr (Or.inr ⟨db1, entry, m1, heq, rfl⟩)

theorem processItemBody_spec (db : List Record) (n : Nat) (url : String)
    (inp : ItemInput) (ex : Option Record) (cs : String) :
    (∃ effs, processItemBody db n url inp ex cs = handleItemError db n ex effs)
    ∨ (∃ r, ex = some r ∧ processItemBody db n url inp ex cs
        = ⟨setStatus db r.id "failed_download", n, false, [.fetch], .failedDownload⟩)
    ∨ (ex = none ∧ processItemBody db n url inp ex cs
        = ⟨db, n, false, [.fetch], .failedDownload⟩)
    ∨ processItemBody db n url inp ex cs
        = ⟨db, n, false, [.fetch], .skippedRedownload⟩
    ∨ processItemBody db n url inp ex cs = afterDownload db n url inp ex cs := by
  unfold processItemBody
  split
  · exact Or.inl ⟨_, rfl⟩
  · split
    · split
      · cases ex with
        | some r => exact Or.inr (Or.inl ⟨r, rfl, rfl⟩)
        | none => exact Or.inr (Or.inr (Or.inl ⟨rfl, rfl⟩))
      · exact Or.inr (Or.inr (Or.inr (Or.inr rfl)))
    · split
      · exact Or.inr (Or.inr (Or.inr (Or.inl rfl)))
      · exact Or.inr (Or.inr (Or.inr (Or.inr rfl)))

theorem processItem_spec (db : List Record) (n : Nat) (url : String)
    (inp : ItemInput) :
    (∃ r0, findBySourceUrl db url = some r0 ∧ r0.status = "embedded"
      ∧ processItem db n url inp = ⟨db, n, true, [], .skippedEmbedded⟩)
    ∨ (∃ r0, findBySourceUrl db url = some r0 ∧ r0.status ≠ "embedded"
      ∧ processItem db n url inp = processItemBody db n url inp (some r0) r0.status)
    ∨ (findBySourceUrl db url = none
      ∧ processItem db n url inp = processItemBody db n url inp none "new") := by
  cases hfind : findBySourceUrl db url with
  | some r0 =>
    by_cases hemb : r0.status = "embedded"
    · exact Or.inl ⟨r0, rfl, hemb, by simp [processItem, hfind, hemb]⟩
    · exact Or.inr (Or.inl ⟨r0, rfl, hemb, by simp [processItem, hfind, hemb]⟩)
  | none => exact Or.inr (Or.inr ⟨rfl, by simp [processItem, hfind]⟩)

/-! An exception caught by the per-item handler marks the record that was
looked up at the start of the item, wherever in the item it was raised. -/

theorem raised_embedStage {db2 : List Record} {n1 : Nat} {inp : ItemInput}
    {r : Record} {eid : Nat} {cs : String}
    (hmem : ∃ x ∈ db2, x.id = r.id)
    (hout : (embedStage db2 n1 inp (some r) eid cs).outcome = .raised) :
    ∃ x ∈ (embedStage db2 n1 inp (some r) eid cs).db,
      x.id = r.id ∧ x.status = "failed_pipeline" := by
  rcases embedStage_spec db2 n1 inp (some r) eid cs with
    ⟨effs, heq⟩ | heq | heq | ⟨_, heq⟩
  · rw [heq]; exact handle_marks _ _ hmem
  · rw [heq] at hout; exact absurd hout (by simp)
  · rw [heq] at hout; exact absurd hout (by simp)
  · rw [heq] at hout; exact absurd hout (by simp)

theorem raised_afterDownload {db : List Record} {n : Nat} {url : String}
    {inp : ItemInput} {r : Record} {cs : String}
    (hmem : ∃ x ∈ db, x.id = r.id)
    (hout : (afterDownload db n url inp (some r) cs).outcome = .raised) :
    ∃ x ∈ (afterDownload db n url inp (some r) cs).db,
      x.id = r.id ∧ x.status = "failed_pipeline" := by
  rcases afterDownload_spec db n url inp (some r) cs with
    ⟨effs, heq⟩ | heq | ⟨db1, entry, m1, hins, heq⟩
  · rw [heq]; exact handle_marks _ _ hmem
  · rw [heq] at hout; exact absurd hout (by simp)
  · rw [heq] at hout ⊢
    exact raised_embedStage (exists_id_setStatus _ _ (exists_id_insert hins hmem)) hout

theorem raised_processItemBody {db : List Record} {n : Nat} {url : String}
    {inp : ItemInput} {r : Record} {cs : String}
    (hmem : ∃ x ∈ db, x.id = r.id)
    (hout : (processItemBody db n url inp (some r) cs).outcome = .raised) :
    ∃ x ∈ (processItemBody db n url inp (some r) cs).db,
      x.id = r.id ∧ x.status = "failed_pipeline" := by
  rcases processItemBody_spec db n url inp (some r) cs with
    ⟨effs, heq⟩ | ⟨r1, _, heq⟩ | ⟨hnone, _⟩ | heq | heq
  · rw [heq]; exact handle_marks _ _ hmem
  · rw [heq] at hout; exact absurd hout (by simp)
  · exact absurd hnone (by simp)
  · rw [heq] at hout; exact absurd hout (by simp)
  · rw [heq] at hout ⊢; exact raised_afterDownload hmem hout

theorem raised_processItem {db : List Record} {n : Nat} {url : String}
    {inp : ItemInput} {r : Record}
    (hfind : findBySourceUrl db url = some r)
    (hout : (processItem db n url inp).outcome = .raised) :
    ∃ x ∈ (processItem db n url inp).db,
      x.id = r.id ∧ x.status = "failed_pipeline" := by
  rcases processItem_spec db n url inp with
    ⟨r0, hf, _, heq⟩ | ⟨r0, hf, _, heq⟩ | ⟨hf, _⟩
  · rw [heq] at hout; exact absurd hout (by simp)
  · rw [hfind] at hf
    cases hf
    rw [heq] at hout ⊢
    exact raised_processItemBody ⟨r, (findBySourceUrl_mem hfind).1, rfl⟩ hout
  · rw [hfind] at hf; exact absurd hf (by simp)

/-! A counted item was either skipped as already embedded, or finished
with a record at status embedded. -/

theorem ok_embedStage {db2 : List Record} {n1 : Nat} {inp : ItemInput}
    {ex : Option Record} {eid : Nat} {cs : String}
    (hcs : cs ≠ "embedded") (hmem : ∃ x ∈ db2, x.id = eid)
    (hout : (embedStage db2 n1 inp ex eid cs).outcome = .ok) :
    ∃ x ∈ (embedStage db2 n1 inp ex eid cs).db, x.status = "embedded" := by
  rcases embedStage_spec db2 n1 inp ex eid cs with
    ⟨effs, heq⟩ | heq | heq | ⟨hemb, _⟩
  · rw [heq] at hout; rw [handle_outcome] at hout; exact absurd hout (by simp)
  · rw [heq] at hout; exact absurd hout (by simp)
  · rw [heq]; exact setEmbedded_mem_embedded _ hmem
  · exact absurd hemb hcs

theorem ok_afterDownload {db : List Record} {n : Nat} {url : String}
    {inp : ItemInput} {ex : Option Record} {cs : String}
    (hcs : cs ≠ "embedded")
    (hout : (afterDownload db n url inp ex cs).outcome = .ok) :
    ∃ x ∈ (afterDownload db n url inp ex cs).db, x.status = "embedded" := by
  rcases afterDownload_spec db n url inp ex cs with
    ⟨effs, heq⟩ | heq | ⟨db1, entry, m1, hins, heq⟩
  · rw [heq] at hout; rw [handle_outcome] at hout; exact absurd hout (by simp)
  · rw [heq] at hout; exact absurd hout (by simp)
  · rw [heq] at hout ⊢
    exact ok_embedStage hcs
      (exists_id_setStatus _ _ ⟨entry, insert_legislation_entry_mem hins, rfl⟩) hout

theorem ok_processItemBody {db : List Record} {n : Nat} {url : String}
    {inp : ItemInput} {ex : Option Record} {cs : String}
    (hcs : cs ≠ "embedded")
    (hout : (processItemBody db n url inp ex cs).outcome = .ok) :
    ∃ x ∈ (processItemBody db n url inp ex cs).db, x.status = "embedded" := by
  rcases processItemBody_spec db n url inp ex cs with
    ⟨effs, heq⟩ | ⟨r1, _, heq⟩ | ⟨_, heq⟩ | heq | heq
  · rw [heq] at hout; rw [handle_outcome] at hout; exact absurd hout (by simp)
  · rw [heq] at hout; exact absurd hout (by simp)
  · rw [heq] at hout; exact absurd hout (by simp)
  · rw [heq] at hout; exact absurd hout (by simp)
  · rw [heq] at hout ⊢; exact ok_afterDownload hcs hout

theorem ok_processItem {db : List Record} {n : Nat} {url : String}
    {inp : ItemInput}
    (hout : (processItem db n url inp).outcome = .ok) :
    ∃ x ∈ (processItem db n url inp).db, x.status = "embedded" := by
  rcases processItem_spec db n url inp with
    ⟨r0, hf, _, heq⟩ | ⟨r0, hf, hne, heq⟩ | ⟨hf, heq⟩
  · rw [heq] at hout; exact absurd hout (by simp)
  · rw [heq] at hout ⊢; exact ok_processItemBody hne hout
  · rw [heq] at hout ⊢; exact ok_processItemBody (by decide) hout

/-- The skippedEmbedded outcome occurs exactly on the checkpoint path:
the looked-up record was already embedded and the store is untouched. -/
theorem skippedEmbedded_processItem {db : List Record} {n : Nat} {url : String}
    {inp : ItemInput}
    (hout : (processItem db n url inp).outcome = .skippedEmbedded) :
    ∃ r ∈ db, r.source_url = url ∧ r.status = "embedded"
      ∧ (processItem db n url inp).db = db := by
  have hbody : ∀ ex cs, (processItemBody db n url inp ex cs).outcome ≠ .skippedEmbedded := by
    intro ex cs
    rcases processItemBody_spec db n url inp ex cs with
      ⟨effs, heq⟩ | ⟨r1, _, heq⟩ | ⟨_, heq⟩ | heq | heq
    · rw [heq, handle_outcome]; simp
    · rw [heq]; simp
    · rw [heq]; simp
    · rw [heq]; simp
    · rw [heq]
      rcases afterDownload_spec db n url inp ex cs with
        ⟨effs, heq2⟩ | heq2 | ⟨db1, entry, m1, _, heq2⟩
      · rw [heq2, handle_outcome]; simp
      · rw [heq2]; simp
      · rw [heq2]
        rcases embedStage_spec (setStatus db1 entry.id "cleaned") m1 inp ex entry.id cs with
          ⟨effs, heq3⟩ | heq3 | heq3 | ⟨_, heq3⟩
        · rw [heq3, handle_outcome]; simp
        · rw [heq3]; simp
        · rw [heq3]; simp
        · rw [heq3]; simp
  rcases processItem_spec db n url inp with
    ⟨r0, hf, hemb, heq⟩ | ⟨r0, hf, _, heq⟩ | ⟨hf, heq⟩
  · rcases findBySourceUrl_mem hf with ⟨hm, hu⟩
    rw [heq]
    exact ⟨r0, hm, hu, hemb, rfl⟩
  · rw [heq] at hout; exact absurd hout (hbody _ _)
  · rw [heq] at hout; exact absurd hout (hbody _ _)

/-! Directed execution lemmas for specific input shapes. -/

theorem setStatus_shape {db : List Record} (rid : Nat) (s : String) :
    ∀ r' ∈ setStatus db rid s,
      r' ∈ db ∨ ∃ r0 ∈ db, r' = { r0 with status := s } := by
  intro r' hr'
  rcases List.mem_map.1 hr' with ⟨r0, hr0, rfl⟩
  unfold statusUpd
  split
  · exact Or.inr ⟨r0, hr0, rfl⟩
  · exact Or.inl hr0

theorem body_afterDownload (db : List Record) (n : Nat) (url : String)
    (inp : ItemInput) (ex : Option Record) (cs : String)
    (hraise : inp.raiseAt = none)
    (hfetch : strFalsy inp.fetchResult = false) :
    processItemBody db n url inp ex cs = afterDownload db n url inp ex cs := by
  unfold processItemBody
  simp [hraise, hfetch]

theorem afterDownload_store {db db1 : List Record} {n n1 : Nat} {url : String}
    {inp : ItemInput} {e : Record} (ex : Option Record) (cs : String)
    (hraise : inp.raiseAt = none)
    (ht : optTruthy inp.md.title = true)
    (hi : optTruthy inp.md.identifier = true)
    (hins : insert_legislation db n (data_to_db url inp.cleanedText inp.md)
      = some (db1, e, n1)) :
    afterDownload db n url inp ex cs
      = embedStage (setStatus db1 e.id "cleaned") n1 inp ex e.id cs := by
  unfold afterDownload
  simp [hraise, ht, hi, hins]

theorem embedStage_embedFail (db2 : List Record) (n1 : Nat) (inp : ItemInput)
    (ex : Option Record) (eid : Nat) (cs : String)
    (hcs : cs ≠ "embedded") (hraise : inp.raiseAt = none)
    (hemb : embFalsy inp.embedResult = true) :
    embedStage db2 n1 inp ex eid cs
      = ⟨setStatus db2 eid "failed_embedding", n1, false,
          [.fetch, .extract, .store, .embed], .failedEmbedding⟩ := by
  unfold embedStage
  simp [hcs, hraise, hemb]

theorem metadata_skip_body (db : List Record) (n : Nat) (url : String)
    (inp : ItemInput) (ex : Option Record) (cs : String)
    (hraise : inp.raiseAt = none)
    (hfetch : strFalsy inp.fetchResult = false)
    (hmd : optTruthy inp.md.title = false ∨ optTruthy inp.md.identifier = false) :
    processItemBody db n url inp ex cs
      = ⟨db, n, false, [.fetch, .extract], .skippedMetadata⟩ := by
  rw [body_afterDownload db n url inp ex cs hraise hfetch]
  unfold afterDownload
  rcases hmd with h | h <;> simp [hraise, h]

/-! Concrete fixtures used by the scenario parts, the witnesses and the
counterexamples below. -/

/-- Item input for a URL whose download, extraction, validation and
embedding all succeed. -/
def goodInput (t i cl : String) : ItemInput :=
  { fetchResult := some "<html>", cleanedText := cl,
    md := { title := some t, identifier := some i, mtype := none,
            date_made := none, effective_date := none },
    embedResult := some [1, 2], raiseAt := none, now := 7 }

/-- A stored row fixture. -/
def mkRec (rid : Nat) (url ident st ct : String) : Record :=
  { id := rid, title := "T", identifier := ident, legislation_type := none,
    date_made := none, effective_date := none, source_url := url,
    content := ct, metadata_json := [], processed_at := 0, status := st }

/-- C2 scenario items: identifiers 2024 No. 1, 2024 No. 2, 2024 No. 2. -/
def c2items : List (String × ItemInput) :=
  [("u1", goodInput "T1" "2024 No. 1" "c1"),
   ("u2", goodInput "T2" "2024 No. 2" "c2"),
   ("u3", goodInput "T3" "2024 No. 2" "c3")]

/-- Pre-existing record for the third URL of the five-URL scenario. -/
def preRec3 : Record := mkRec 1 "u3" "I3" "cleaned" "c3"

/-- Five URLs; processing of the third raises an uncaught exception
during cleaning and metadata extraction. -/
def scenario5 : List (String × ItemInput) :=
  [("u1", goodInput "T1" "I1" "c1"),
   ("u2", goodInput "T2" "I2" "c2"),
   ("u3", { goodInput "T3" "I3" "c3" with raiseAt := some ExcStage.extract }),
   ("u4", goodInput "T4" "I4" "c4"),
   ("u5", goodInput "T5" "I5" "c5")]

/-- Item whose fetch fails, for a URL with no pre-existing record. -/
def cexFetchFail : ItemInput := { goodInput "T" "I" "c" with fetchResult := none }

/-- Item that raises during the embed stage after the store stage has
committed the freshly inserted record. -/
def cexRaiseEmbed : ItemInput := { goodInput "T" "I" "c" with raiseAt := some ExcStage.embed }

/-- Item with valid metadata whose extractor returns empty cleaned text. -/
def cexEmptyClean : ItemInput := { goodInput "T" "I" "" with embedResult := none }

/-- Item whose extracted metadata lacks a title. -/
def cexMissingTitle : ItemInput :=
  { goodInput "T" "I" "c" with
    md := { title := none, identifier := some "I", mtype := none,
            date_made := none, effective_date := none } }

/-! Claim theorems. -/

/-- C4: for every URL whose existing record has status embedded, the run
performs no fetch, extract, store, embed, or index operation for that URL
(the effect list is empty), leaves the store — hence the record's status,
content and every other field — unchanged, and counts the item as
processed. -/
theorem C4_embedded_skip_idempotent (db : List Record) (n : Nat) (url : String)
    (inp : ItemInput) (r : Record)
    (hr : findBySourceUrl db url = some r) (hemb : r.status = "embedded") :
    processItem db n url inp = ⟨db, n, true, [], .skippedEmbedded⟩ := by
  simp [processItem, hr, hemb]

/-- Witness for C4 on a concrete store holding one embedded record. -/
theorem C4_witness :
    processItem [mkRec 1 "u" "I" "embedded" "c"] 5 "u" (goodInput "T" "I" "c")
      = ⟨[mkRec 1 "u" "I" "embedded" "c"], 5, true, [], .skippedEmbedded⟩ :=
  C4_embedded_skip_idempotent [mkRec 1 "u" "I" "embedded" "c"] 5 "u"
    (goodInput "T" "I" "c") (mkRec 1 "u" "I" "embedded" "c") (by decide) (by decide)

/-- C7: for every item reaching validation whose extracted metadata lacks
a non-empty title or a non-empty identifier, the item is abandoned with no
write to the store: the store is exactly unchanged and the item is not
counted; the run moves on to the next URL. -/
theorem C7_missing_metadata_skip (db : List Record) (n : Nat) (url : String)
    (inp : ItemInput)
    (hne : ∀ r ∈ db, r.source_url = url → r.status ≠ "embedded")
    (hraise : inp.raiseAt = none)
    (hfetch : strFalsy inp.fetchResult = false)
    (hmd : optTruthy inp.md.title = false ∨ optTruthy inp.md.identifier = false) :
    (processItem db n url inp).db = db
    ∧ (processItem db n url inp).counted = false
    ∧ (processItem db n url inp).outcome = .skippedMetadata := by
  rcases processItem_spec db n url inp with
    ⟨r0, hf, hemb, _⟩ | ⟨r0, hf, _, heq⟩ | ⟨hf, heq⟩
  · rcases findBySourceUrl_mem hf with ⟨hm, hu⟩
    exact absurd hemb (hne r0 hm hu)
  · rw [heq, metadata_skip_body db n url inp _ _ hraise hfetch hmd]
    exact ⟨rfl, rfl, rfl⟩
  · rw [heq, metadata_skip_body db n url inp _ _ hraise hfetch hmd]
    exact ⟨rfl, rfl, rfl⟩

/-- Witness for C7: a record at failed_download and an item with an empty
extracted title. -/
theorem C7_witness :
    (processItem [mkRec 1 "u" "I" "failed_download" "c"] 5 "u" cexMissingTitle).db
        = [mkRec 1 "u" "I" "failed_download" "c"]
    ∧ (processItem [mkRec 1 "u" "I" "failed_download" "c"] 5 "u" cexMissingTitle).counted = false
    ∧ (processItem [mkRec 1 "u" "I" "failed_download" "c"] 5 "u" cexMissingTitle).outcome
        = .skippedMetadata :=
  C7_missing_metadata_skip [mkRec 1 "u" "I" "failed_download" "c"] 5 "u"
    cexMissingTitle (by decide) (by decide) (by decide) (by decide)

/-- C2: insert_legislation is insert-only keyed by identifier — when a
record with the given identifier exists, that very record is returned with
the store unchanged (hence all its fields unchanged and nothing inserted)
— and consequently a run never produces two records with the same
identifier. -/
theorem C2_insert_only_by_identifier :
    (∀ (db : List Record) (n : Nat) (d : DataToDb) (r : Record),
      findByIdentifier db d.identifier = some r →
      insert_legislation db n d = some (db, r, n))
    ∧ ∀ (db : List Record) (n : Nat) (items : List (String × ItemInput)),
        uniqueIdents db → uniqueIdents (runPipeline db n items).db := by
  constructor
  · intro db n d r hfind
    unfold insert_legislation
    rw [hfind]
  · intro db n items hu
    exact pres_runPipeline uniqueIdents
      (fun _ _ _ _ h => uniqueIdents_setStatus h)
      (fun _ _ _ h => uniqueIdents_setEmbedded h) items
      (fun _ _ _ _ _ _ _ hins h => uniqueIdents_insert hins h) db n hu

/-- Witness for C2: the duplicate-identifier scenario 2024 No. 1,
2024 No. 2, 2024 No. 2 ends with unique identifiers and exactly two
records. -/
theorem C2_witness :
    uniqueIdents (runPipeline [] 1 c2items).db
    ∧ (runPipeline [] 1 c2items).db.length = 2 :=
  ⟨C2_insert_only_by_identifier.2 [] 1 c2items (by simp [uniqueIdents]), by decide⟩

/-- C10: starting from any store whose statuses lie in the five values the
pipeline commits — in particular from the empty store — every record after
a run still has one of those five statuses; the in-memory default new and
the schema default pending are never stored, because insertion always sets
status cleaned explicitly. -/
theorem C10_status_vocabulary (db : List Record) (n : Nat)
    (items : List (String × ItemInput)) (h : statusesOk db) :
    (∀ r ∈ (runPipeline db n items).db, r.status ∈ okStatuses)
    ∧ ∀ r ∈ (runPipeline db n items).db, r.status ≠ "new" ∧ r.status ≠ "pending" := by
  have hok := pres_runPipeline statusesOk
    (fun _ _ _ hs h0 => statusesOk_setStatus h0 hs)
    (fun _ _ _ h0 => statusesOk_setEmbedded h0) items
    (fun _ _ _ _ _ _ _ hins h0 => statusesOk_insert hins h0) db n h
  refine ⟨hok, fun r hr => ?_⟩
  have hmem := hok r hr
  simp only [okStatuses, List.mem_cons, List.not_mem_nil, or_false] at hmem
  rcases hmem with h1 | h1 | h1 | h1 | h1 <;> rw [h1] <;> exact ⟨by decide, by decide⟩

/-- Witness for C10 on the duplicate-identifier scenario from the empty
store. -/
theorem C10_witness :
    (∀ r ∈ (runPipeline [] 1 c2items).db, r.status ∈ okStatuses)
    ∧ ∀ r ∈ (runPipeline [] 1 c2items).db, r.status ≠ "new" ∧ r.status ≠ "pending" :=
  C10_status_vocabulary [] 1 c2items (by simp [statusesOk])

/-- C1 counterexample: for a URL with no pre-existing record, a fetch
failure leaves the store empty — no record at failed_download exists for
the URL, against the claim that one is persisted regardless of whether a
record already existed. -/
theorem C1_counterexample :
    strFalsy cexFetchFail.fetchResult = true
    ∧ (processItem [] 1 "u" cexFetchFail).outcome = .failedDownload
    ∧ (processItem [] 1 "u" cexFetchFail).db = []
    ∧ ¬ ∃ r ∈ (processItem [] 1 "u" cexFetchFail).db,
        r.source_url = "u" ∧ r.status = "failed_download" := by
  decide

/-- C1 as amended: when the fetch fails with no exception injected, a
pre-existing record whose status made the fetch stage run (new or
failed_download) is set to failed_download and persisted before the next
URL; when no record existed — or the item was on the resume path — the
store is unchanged; in every case the item is not counted and every
record afterwards is an old record or an old record re-marked
failed_download, so no cleaned or embedded record is created or
corrupted. -/
theorem C1_fetch_failure (db : List Record) (n : Nat) (url : String)
    (inp : ItemInput)
    (hne : ∀ r ∈ db, r.source_url = url → r.status ≠ "embedded")
    (hraise : inp.raiseAt = none)
    (hfail : strFalsy inp.fetchResult = true) :
    ((∃ r, findBySourceUrl db url = some r
        ∧ (r.status = "new" ∨ r.status = "failed_download")
        ∧ (processItem db n url inp).db = setStatus db r.id "failed_download"
        ∧ (processItem db n url inp).outcome = .failedDownload)
      ∨ (processItem db n url inp).db = db)
    ∧ (processItem db n url inp).counted = false
    ∧ ∀ r' ∈ (processItem db n url inp).db,
        r' ∈ db ∨ ∃ r0 ∈ db, r' = { r0 with status := "failed_download" } := by
  rcases processItem_spec db n url inp with
    ⟨r0, hf, hemb, _⟩ | ⟨r0, hf, hnemb, heq⟩ | ⟨hf, heq⟩
  · rcases findBySourceUrl_mem hf with ⟨hm, hu⟩
    exact absurd hemb (hne r0 hm hu)
  · by_cases hcs : (r0.status == "new" || r0.status == "failed_download") = true
    · have hbody : processItemBody db n url inp (some r0) r0.status
          = ⟨setStatus db r0.id "failed_download", n, false, [.fetch], .failedDownload⟩ := by
        unfold processItemBody
        simp [hraise, hcs, hfail]
      rw [heq, hbody]
      exact ⟨Or.inl ⟨r0, hf, by simpa using hcs, rfl, rfl⟩, rfl, setStatus_shape _ _⟩
    · have hbody : processItemBody db n url inp (some r0) r0.status
          = ⟨db, n, false, [.fetch], .skippedRedownload⟩ := by
        unfold processItemBody
        simp [hraise, hcs, hfail]
      rw [heq, hbody]
      exact ⟨Or.inr rfl, rfl, fun r' hr' => Or.inl hr'⟩
  · have hbody : processItemBody db n url inp none "new"
        = ⟨db, n, false, [.fetch], .failedDownload⟩ := by
      unfold processItemBody
      simp [hraise, hfail]
    rw [heq, hbody]
    exact ⟨Or.inr rfl, rfl, fun r' hr' => Or.inl hr'⟩

/-- Witness for C1 as amended: one record at failed_download whose URL
fails to fetch again. -/
theorem C1_witness :
    ((∃ r, findBySourceUrl [mkRec 1 "u" "I" "failed_download" "c"] "u" = some r
        ∧ (r.status = "new" ∨ r.status = "failed_download")
        ∧ (processItem [mkRec 1 "u" "I" "failed_download" "c"] 5 "u" cexFetchFail).db
            = setStatus [mkRec 1 "u" "I" "failed_download" "c"] r.id "failed_download"
        ∧ (processItem [mkRec 1 "u" "I" "failed_download" "c"] 5 "u" cexFetchFail).outcome
            = .failedDownload)
      ∨ (processItem [mkRec 1 "u" "I" "failed_download" "c"] 5 "u" cexFetchFail).db
          = [mkRec 1 "u" "I" "failed_download" "c"])
    ∧ (processItem [mkRec 1 "u" "I" "failed_download" "c"] 5 "u" cexFetchFail).counted = false
    ∧ ∀ r' ∈ (processItem [mkRec 1 "u" "I" "failed_download" "c"] 5 "u" cexFetchFail).db,
        r' ∈ [mkRec 1 "u" "I" "failed_download" "c"]
        ∨ ∃ r0 ∈ [mkRec 1 "u" "I" "failed_download" "c"],
            r' = { r0 with status := "failed_download" } :=
  C1_fetch_failure [mkRec 1 "u" "I" "failed_download" "c"] 5 "u" cexFetchFail
    (by decide) (by decide) (by decide)

/-- C3 counterexample: a fresh URL whose processing raises after the
store stage has committed the new record; a record for the URL exists in
the store at the moment of the exception, yet it is left at cleaned and
nothing is marked failed_pipeline, against the claim that the record (if
one exists at that point) is marked failed_pipeline. -/
theorem C3_counterexample :
    (processItem [] 1 "u" cexRaiseEmbed).outcome = .raised
    ∧ (∃ r ∈ (processItem [] 1 "u" cexRaiseEmbed).db,
        r.source_url = "u" ∧ r.status = "cleaned")
    ∧ ∀ r ∈ (processItem [] 1 "u" cexRaiseEmbed).db, r.status ≠ "failed_pipeline" := by
  decide

/-- C3 as amended: when an uncaught exception is raised while processing
an item, a record that existed in the store when the item began is marked
failed_pipeline and committed, the item is not counted, and the run
continues; a record first inserted during the item keeps its last
committed status.  In the five-URL scenario where only item 3 — which has
a pre-existing record — raises, the run completes with outcomes ok, ok,
raised, ok, ok, items 1, 2, 4, 5 end embedded, item 3 ends
failed_pipeline, and the summary reports 4 processed. -/
theorem C3_failed_pipeline_isolation :
    (∀ (db : List Record) (n : Nat) (url : String) (inp : ItemInput) (r : Record),
      findBySourceUrl db url = some r →
      (processItem db n url inp).outcome = .raised →
      (∃ x ∈ (processItem db n url inp).db, x.id = r.id ∧ x.status = "failed_pipeline")
      ∧ (processItem db n url inp).counted = false)
    ∧ ((runPipeline [preRec3] 10 scenario5).count = 4
      ∧ (runPipeline [preRec3] 10 scenario5).outcomes = [.ok, .ok, .raised, .ok, .ok]
      ∧ (∀ r ∈ (runPipeline [preRec3] 10 scenario5).db,
          r.source_url = "u3" → r.status = "failed_pipeline")
      ∧ ∀ r ∈ (runPipeline [preRec3] 10 scenario5).db,
          r.source_url ≠ "u3" → r.status = "embedded") := by
  refine ⟨?_, by decide⟩
  intro db n url inp r hf hout
  refine ⟨raised_processItem hf hout, ?_⟩
  rw [counted_processItem, hout]
  rfl

/-- Witness for C3 as amended: the pre-existing record of the raising
item ends at failed_pipeline. -/
theorem C3_witness :
    (∃ x ∈ (processItem [preRec3] 10 "u3"
        { goodInput "T3" "I3" "c3" with raiseAt := some ExcStage.extract }).db,
      x.id = preRec3.id ∧ x.status = "failed_pipeline")
    ∧ (processItem [preRec3] 10 "u3"
        { goodInput "T3" "I3" "c3" with raiseAt := some ExcStage.extract }).counted = false :=
  C3_failed_pipeline_isolation.1 [preRec3] 10 "u3"
    { goodInput "T3" "I3" "c3" with raiseAt := some ExcStage.extract } preRec3
    (by decide) (by decide)

/-- C5: when the store stage succeeds — insert_legislation returns the
row and the cleaned status is committed — and the embedding then fails,
the final store is exactly the store after the store stage with that
row's status re-committed as failed_embedding: the cleaned commit is not
rolled back, the row keeps its content, identifier and title, the item is
not counted, and the run proceeds. -/
theorem C5_embed_failure_keeps_store (db db1 : List Record) (n n1 : Nat)
    (url : String) (inp : ItemInput) (e : Record)
    (hne : ∀ r ∈ db, r.source_url = url → r.status ≠ "embedded")
    (hraise : inp.raiseAt = none)
    (hfetch : strFalsy inp.fetchResult = false)
    (ht : optTruthy inp.md.title = true)
    (hi : optTruthy inp.md.identifier = true)
    (hins : insert_legislation db n (data_to_db url inp.cleanedText inp.md)
      = some (db1, e, n1))
    (hemb : embFalsy inp.embedResult = true) :
    (processItem db n url inp).db
        = setStatus (setStatus db1 e.id "cleaned") e.id "failed_embedding"
    ∧ (processItem db n url inp).counted = false
    ∧ (processItem db n url inp).outcome = .failedEmbedding
    ∧ ∃ x ∈ (processItem db n url inp).db,
        x.id = e.id ∧ x.content = e.content ∧ x.identifier = e.identifier
        ∧ x.title = e.title ∧ x.status = "failed_embedding" := by
  have hstep : ∀ ex cs, cs ≠ "embedded" →
      processItemBody db n url inp ex cs
        = ⟨setStatus (setStatus db1 e.id "cleaned") e.id "failed_embedding", n1, false,
            [.fetch, .extract, .store, .embed], .failedEmbedding⟩ := by
    intro ex cs hcs
    rw [body_afterDownload db n url inp ex cs hraise hfetch,
      afterDownload_store ex cs hraise ht hi hins,
      embedStage_embedFail _ _ _ _ _ _ hcs hraise hemb]
  have hfields : ∃ x ∈ setStatus (setStatus db1 e.id "cleaned") e.id "failed_embedding",
      x.id = e.id ∧ x.content = e.content ∧ x.identifier = e.identifier
      ∧ x.title = e.title ∧ x.status = "failed_embedding" := by
    refine ⟨statusUpd e.id "failed_embedding" (statusUpd e.id "cleaned" e),
      List.mem_map_of_mem _
        (List.mem_map_of_mem _ (insert_legislation_entry_mem hins)), ?_⟩
    unfold statusUpd
    simp
  rcases processItem_spec db n url inp with
    ⟨r0, hf, hemb0, _⟩ | ⟨r0, hf, hnemb, heq⟩ | ⟨hf, heq⟩
  · rcases findBySourceUrl_mem hf with ⟨hm, hu⟩
    exact absurd hemb0 (hne r0 hm hu)
  · rw [heq, hstep _ _ hnemb]
    exact ⟨rfl, rfl, rfl, hfields⟩
  · rw [heq, hstep _ _ (by decide)]
    exact ⟨rfl, rfl, rfl, hfields⟩

/-- Item whose embedding generation fails after a successful store. -/
def cexEmbedFail : ItemInput := { goodInput "T" "I" "c" with embedResult := none }

/-- The data dictionary the pipeline builds for cexEmbedFail at URL u. -/
def dC5 : DataToDb := data_to_db "u" cexEmbedFail.cleanedText cexEmbedFail.md

/-- Witness for C5: fresh URL, store succeeds, embedding fails; the final
store is the inserted row re-committed as failed_embedding. -/
theorem C5_witness :
    (processItem [] 1 "u" cexEmbedFail).db
      = setStatus (setStatus [newRec 1 dC5] (newRec 1 dC5).id "cleaned")
          (newRec 1 dC5).id "failed_embedding" :=
  (C5_embed_failure_keeps_store [] [newRec 1 dC5] 1 2 "u" cexEmbedFail (newRec 1 dC5)
    (by decide) (by decide) (by decide) (by decide) (by decide) (by decide) (by decide)).1

/-- C6 counterexample: an item with valid metadata whose extractor
returns empty cleaned text produces a committed record whose status is
beyond new (failed_embedding) with empty content, violating the claimed
invariant. -/
theorem C6_counterexample :
    ∃ r ∈ (processItem [] 1 "u" cexEmptyClean).db,
      beyondNew r.status ∧ r.status = "failed_embedding" ∧ r.content = "" := by
  decide

/-- C6 as amended: provided the extractor yields non-empty cleaned text
for every item, a run from the empty store maintains the invariant:
identifiers and source URLs are each unique across all records, and every
record with status beyond new has non-empty content. -/
theorem C6_store_invariants (n : Nat) (items : List (String × ItemInput))
    (hclean : ∀ it ∈ items, it.2.cleanedText ≠ "") :
    uniqueIdents (runPipeline [] n items).db
    ∧ uniqueUrls (runPipeline [] n items).db
    ∧ ∀ r ∈ (runPipeline [] n items).db, beyondNew r.status → r.content ≠ "" := by
  refine ⟨?_, ?_, ?_⟩
  · exact pres_runPipeline uniqueIdents
      (fun _ _ _ _ h => uniqueIdents_setStatus h)
      (fun _ _ _ h => uniqueIdents_setEmbedded h) items
      (fun _ _ _ _ _ _ _ hins h => uniqueIdents_insert hins h) [] n
      (by simp [uniqueIdents])
  · exact pres_runPipeline uniqueUrls
      (fun _ _ _ _ h => uniqueUrls_setStatus h)
      (fun _ _ _ h => uniqueUrls_setEmbedded h) items
      (fun _ _ _ _ _ _ _ hins h => uniqueUrls_insert hins h) [] n
      (by simp [uniqueUrls])
  · have hc := pres_runPipeline contentsNonEmpty
      (fun _ _ _ _ h => contentsNonEmpty_setStatus h)
      (fun _ _ _ h => contentsNonEmpty_setEmbedded h) items
      (fun it hit _ _ _ _ _ hins h =>
        contentsNonEmpty_insert hins h (hclean it hit)) [] n
      (fun r hr => absurd hr (List.not_mem_nil r))
    exact fun r hr _ => hc r hr

/-- Witness for C6 as amended on the duplicate-identifier scenario. -/
theorem C6_witness :
    uniqueIdents (runPipeline [] 1 c2items).db
    ∧ uniqueUrls (runPipeline [] 1 c2items).db
    ∧ ∀ r ∈ (runPipeline [] 1 c2items).db, beyondNew r.status → r.content ≠ "" :=
  C6_store_invariants 1 c2items (by decide)

/-- C8: for every query whose embedding succeeds, against an index of n
stored vectors, the query component returns exactly min 4 n results in
ascending order of distance. -/
theorem C8_query_returns_sorted_topk (store : List VEntry)
    (emb : Option (List Int)) (h : embFalsy emb = false) :
    ∃ l, queryMain store emb = some l
      ∧ l.length = min 4 store.length
      ∧ List.Sorted distLe l := by
  refine ⟨List.insertionSort distLe (chromaQuery store 4),
    by simp [queryMain, h], ?_, List.sorted_insertionSort distLe _⟩
  rw [List.length_insertionSort]
  unfold chromaQuery
  rw [List.length_take, List.length_insertionSort]

/-- Vector-index entry fixture. -/
def vfix (i : String) (d : Int) : VEntry :=
  { vid := i, document := "doc", sql_id := some 1, distance := d }

/-- A five-entry vector index fixture. -/
def storeFix : List VEntry :=
  [vfix "a" 5, vfix "b" 2, vfix "c" 9, vfix "d" 1, vfix "e" 3]

/-- Witness for C8 on a five-entry index: exactly four results, sorted. -/
theorem C8_witness :
    ∃ l, queryMain storeFix (some [1]) = some l
      ∧ l.length = min 4 storeFix.length
      ∧ List.Sorted distLe l :=
  C8_query_returns_sorted_topk storeFix (some [1]) (by decide)

/-- C9: the run's summary count equals the number of items whose outcome
counts as processed — skipped because already embedded, or finishing at
embedded this run; an item increments the count exactly when its outcome
is one of those two, a skippedEmbedded outcome means the looked-up record
was already embedded and the store is untouched, and an ok outcome means
a record ends the item at status embedded; all other outcomes (the
failure and skip exits) are not counted. -/
theorem C9_processed_count :
    (∀ (db : List Record) (n : Nat) (items : List (String × ItemInput)),
      (runPipeline db n items).count
        = (runPipeline db n items).outcomes.countP countsProcessed)
    ∧ (∀ (db : List Record) (n : Nat) (url : String) (inp : ItemInput),
      (processItem db n url inp).counted
        = countsProcessed (processItem db n url inp).outcome)
    ∧ (∀ (db : List Record) (n : Nat) (url : String) (inp : ItemInput),
      (processItem db n url inp).outcome = .skippedEmbedded →
      ∃ r ∈ db, r.source_url = url ∧ r.status = "embedded"
        ∧ (processItem db n url inp).db = db)
    ∧ ∀ (db : List Record) (n : Nat) (url : String) (inp : ItemInput),
      (processItem db n url inp).outcome = .ok →
      ∃ x ∈ (processItem db n url inp).db, x.status = "embedded" :=
  ⟨runPipeline_count_eq, counted_processItem,
    fun _ _ _ _ h => skippedEmbedded_processItem h,
    fun _ _ _ _ h => ok_processItem h⟩

/-- Witness for C9: a skipped already-embedded item. -/
theorem C9_witness :
    ∃ r ∈ [mkRec 1 "u" "I" "embedded" "c"],
      r.source_url = "u" ∧ r.status = "embedded"
      ∧ (processItem [mkRec 1 "u" "I" "embedded" "c"] 5 "u" (goodInput "T" "I" "c")).db
          = [mkRec 1 "u" "I" "embedded" "c"] :=
  C9_processed_count.2.2.1 [mkRec 1 "u" "I" "embedded" "c"] 5 "u"
    (goodInput "T" "I" "c") (by decide)

end UKLeg
